/-
  Verification of RatedStats_Achiev (src/sync_pvp.py, src/check_character_pvp.py)
  against its natural-language specification.

  Shallow embedding notes:
  * An achievement blob (the JSON dict stored in char_data.ach_json, mapping an
    achievement-id string to {"name": ..., "ts": ...}) is modelled as an
    association list `AchBlob` that preserves insertion order, exactly as a
    Python dict does.  Timestamps are `Option Int` (JSON null ↦ none).
  * `_merge_ach_json` (sync_pvp.py:829-882) is modelled on the parsed dicts:
    the json.loads / json.dumps envelope is a bijection between canonical
    compact blobs and these association lists.
  * Wall-clock time and token counts in the rate limiter are modelled as `ℚ`
    so the arithmetic of sync_pvp.py:296-321 is exact.
-/
import Mathlib

set_option maxRecDepth 100000

namespace RatedStats

/-- One achievement entry value: `{"name": ..., "ts": ...}` where `ts` is an
integer unix timestamp or JSON null (`none`). -/
structure AchInfo where
  name : String
  ts : Option Int
  deriving Repr, DecidableEq

/-- A parsed `ach_json` blob: insertion-ordered association list from the
achievement-id key (a JSON object key, i.e. a string) to its entry, mirroring
a Python dict. -/
abbrev AchBlob := List (String × AchInfo)

/-- Keys of a blob, in insertion order. -/
def blobKeys (b : AchBlob) : List String := b.map Prod.fst

/-- `merged[aid] = info` on a Python dict whose key is already present: the
value is replaced in place, the insertion position is kept. -/
def setKey : AchBlob → String → AchInfo → AchBlob
  | [], _, _ => []
  | kv :: rest, aid, v =>
    match kv.1 == aid with
    | true => (kv.1, v) :: setKey rest aid v
    | false => kv :: setKey rest aid v

/-- The per-id decision of `_merge_ach_json` (sync_pvp.py:851-880): which of
the two entries survives for an id present on both sides. -/
def pickInfo (infoOld infoNew : AchInfo) : AchInfo :=
  match infoOld.ts, infoNew.ts with
  | none, some _ => infoNew
  | some _, none => infoOld
  | none, none => infoOld
  | some tsOld, some tsNew => if tsOld ≤ tsNew then infoNew else infoOld

/-- One iteration of the `for aid_str, info_new in incoming.items()` loop of
`_merge_ach_json` (sync_pvp.py:851-880), acting on the accumulator `merged`.
`int(ts)` on a JSON integer timestamp is the identity, so the
`try/except` around the comparison never fires in the model. -/
def mergeStep (merged : AchBlob) (aid : String) (infoNew : AchInfo) : AchBlob :=
  match List.lookup aid merged with
  | none => merged ++ [(aid, infoNew)]
  | some infoOld =>
    match infoOld.ts, infoNew.ts with
    | none, some _ => setKey merged aid infoNew
    | some _, none => merged
    | none, none => merged
    | some tsOld, some tsNew =>
      if tsOld ≤ tsNew then setKey merged aid infoNew else merged

/-- `_merge_ach_json` (sync_pvp.py:829-882) on parsed blobs: start from
`merged = dict(existing)` and layer every incoming item on top. -/
def mergeAchJson (existing incoming : AchBlob) : AchBlob :=
  incoming.foldl (fun m kv => mergeStep m kv.1 kv.2) existing

/-- The pointwise specification of the merge for a single id, phrased on the
optional entries of the two sides. -/
def mergeSpec (o n : Option AchInfo) : Option AchInfo :=
  match o, n with
  | none, none => none
  | some infoOld, none => some infoOld
  | none, some infoNew => some infoNew
  | some infoOld, some infoNew => some (pickInfo infoOld infoNew)

/-! ### Lookup lemmas for the association-list dict model -/

theorem mergeSpec_none (o : Option AchInfo) : mergeSpec o none = o := by
  cases o <;> rfl

theorem lookup_setKey_self (b : AchBlob) (aid : String) (v : AchInfo)
    (h : aid ∈ blobKeys b) : List.lookup aid (setKey b aid v) = some v := by
  induction b with
  | nil => simp [blobKeys] at h
  | cons kv rest ih =>
    obtain ⟨k, w⟩ := kv
    by_cases hk : k = aid
    · subst hk
      simp only [setKey, beq_self_eq_true, List.lookup]
    · have h' : aid ∈ blobKeys rest := by
        have : aid = k ∨ aid ∈ blobKeys rest := by simpa [blobKeys] using h
        rcases this with h1 | h1
        · exact absurd h1.symm hk
        · exact h1
      have hne : (k == aid) = false := beq_false_of_ne hk
      have hne' : (aid == k) = false := beq_false_of_ne fun e => hk e.symm
      simp only [setKey, hne, List.lookup, hne']
      exact ih h'

theorem lookup_setKey_ne (b : AchBlob) (aid a : String) (v : AchInfo)
    (h : a ≠ aid) : List.lookup a (setKey b aid v) = List.lookup a b := by
  induction b with
  | nil => simp [setKey]
  | cons kv rest ih =>
    obtain ⟨k, w⟩ := kv
    by_cases hk : k = aid
    · subst hk
      have hne : (a == k) = false := beq_false_of_ne h
      simp only [setKey, beq_self_eq_true, List.lookup, hne]
      exact ih
    · have hnk : (k == aid) = false := beq_false_of_ne hk
      by_cases ha : a = k
      · subst ha
        simp only [setKey, hnk, List.lookup, beq_self_eq_true]
      · have hne : (a == k) = false := beq_false_of_ne ha
        simp only [setKey, hnk, List.lookup, hne]
        exact ih

theorem lookup_append_single_self (b : AchBlob) (aid : String) (v : AchInfo)
    (h : List.lookup aid b = none) :
    List.lookup aid (b ++ [(aid, v)]) = some v := by
  induction b with
  | nil => simp [List.lookup]
  | cons kv rest ih =>
    obtain ⟨k, w⟩ := kv
    by_cases hk : aid = k
    · subst hk
      simp only [List.lookup, beq_self_eq_true] at h
      exact absurd h (by simp)
    · have hne : (aid == k) = false := beq_false_of_ne hk
      simp only [List.lookup, hne] at h
      simp only [List.cons_append, List.lookup, hne]
      exact ih h

theorem lookup_append_single_ne (b : AchBlob) (aid a : String) (v : AchInfo)
    (h : a ≠ aid) : List.lookup a (b ++ [(aid, v)]) = List.lookup a b := by
  induction b with
  | nil => simp [List.lookup, beq_false_of_ne h]
  | cons kv rest ih =>
    obtain ⟨k, w⟩ := kv
    by_cases ha : a = k
    · subst ha
      simp only [List.cons_append, List.lookup, beq_self_eq_true]
    · have hne : (a == k) = false := beq_false_of_ne ha
      simp only [List.cons_append, List.lookup, hne]
      exact ih

theorem lookup_mem_keys {b : AchBlob} {aid : String} {v : AchInfo}
    (h : List.lookup aid b = some v) : aid ∈ blobKeys b := by
  induction b with
  | nil => simp [List.lookup] at h
  | cons kv rest ih =>
    obtain ⟨k, w⟩ := kv
    by_cases hk : aid = k
    · simp [blobKeys, hk]
    · have hne : (aid == k) = false := beq_false_of_ne hk
      simp only [List.lookup, hne] at h
      have := ih h
      simp only [blobKeys, List.map_cons, List.mem_cons]
      exact Or.inr (by simpa [blobKeys] using this)

theorem lookup_none_of_not_mem {b : AchBlob} {aid : String}
    (h : aid ∉ blobKeys b) : List.lookup aid b = none := by
  cases hb : List.lookup aid b with
  | none => rfl
  | some v => exact absurd (lookup_mem_keys hb) h

/-- One merge step and then a lookup at the very id just processed. -/
theorem lookup_mergeStep_self (m : AchBlob) (aid : String) (infoNew : AchInfo) :
    List.lookup aid (mergeStep m aid infoNew) =
      mergeSpec (List.lookup aid m) (some infoNew) := by
  unfold mergeStep mergeSpec pickInfo
  cases hm : List.lookup aid m with
  | none => simpa using lookup_append_single_self m aid infoNew hm
  | some infoOld =>
    have hmem : aid ∈ blobKeys m := lookup_mem_keys hm
    cases ho : infoOld.ts with
    | none =>
      cases hn : infoNew.ts with
      | none => simp [ho, hn, hm]
      | some t => simp [ho, hn, lookup_setKey_self m aid infoNew hmem]
    | some tOld =>
      cases hn : infoNew.ts with
      | none => simp [ho, hn, hm]
      | some tNew =>
        by_cases hle : tOld ≤ tNew
        · simp [ho, hn, hle, lookup_setKey_self m aid infoNew hmem]
        · simp [ho, hn, hle, hm]

/-- A merge step for one id rewrites the accumulator to one of three shapes. -/
theorem mergeStep_shape (m : AchBlob) (aid : String) (infoNew : AchInfo) :
    mergeStep m aid infoNew = m ∨
      mergeStep m aid infoNew = setKey m aid infoNew ∨
      mergeStep m aid infoNew = m ++ [(aid, infoNew)] := by
  unfold mergeStep
  cases hm : List.lookup aid m with
  | none => simp
  | some infoOld =>
    cases ho : infoOld.ts with
    | none =>
      cases hn : infoNew.ts with
      | none => simp [ho, hn]
      | some t => simp [ho, hn]
    | some tOld =>
      cases hn : infoNew.ts with
      | none => simp [ho, hn]
      | some tNew =>
        by_cases hle : tOld ≤ tNew
        · simp [ho, hn, hle]
        · simp [ho, hn, hle]

/-- A merge step for id `aid` leaves every other id's entry unchanged. -/
theorem lookup_mergeStep_ne (m : AchBlob) (aid a : String) (infoNew : AchInfo)
    (h : a ≠ aid) : List.lookup a (mergeStep m aid infoNew) = List.lookup a m := by
  rcases mergeStep_shape m aid infoNew with hs | hs | hs <;> rw [hs]
  · exact lookup_setKey_ne m aid a infoNew h
  · exact lookup_append_single_ne m aid a infoNew h

/-- The merge loop, characterised pointwise: provided the incoming dict has
no duplicate keys (Python dicts cannot), looking up any id in the result is
`mergeSpec` of the two sides' lookups. -/
theorem lookup_mergeAchJson (existing incoming : AchBlob)
    (hnd : (blobKeys incoming).Nodup) (a : String) :
    List.lookup a (mergeAchJson existing incoming) =
      mergeSpec (List.lookup a existing) (List.lookup a incoming) := by
  induction incoming generalizing existing with
  | nil =>
    simp only [mergeAchJson, List.foldl_nil, List.lookup, mergeSpec_none]
  | cons kv rest ih =>
    obtain ⟨k, w⟩ := kv
    have hcons : (k :: blobKeys rest).Nodup := by simpa [blobKeys] using hnd
    have hnd' : (blobKeys rest).Nodup := (List.nodup_cons.mp hcons).2
    have hnotin : k ∉ blobKeys rest := (List.nodup_cons.mp hcons).1
    have hfold :
        mergeAchJson existing ((k, w) :: rest) =
          mergeAchJson (mergeStep existing k w) rest := by
      simp [mergeAchJson]
    rw [hfold, ih _ hnd']
    by_cases ha : a = k
    · subst ha
      rw [lookup_none_of_not_mem hnotin, lookup_mergeStep_self]
      simp [List.lookup, mergeSpec_none]
    · have hne : (a == k) = false := beq_false_of_ne ha
      rw [lookup_mergeStep_ne existing k a w ha]
      simp [List.lookup, hne]

/-! ### Self-merge lemmas -/

theorem setKey_of_not_mem (b : AchBlob) (aid : String) (v : AchInfo)
    (h : aid ∉ blobKeys b) : setKey b aid v = b := by
  induction b with
  | nil => rfl
  | cons kv rest ih =>
    obtain ⟨k, w⟩ := kv
    have hk : k ≠ aid := by
      intro e
      exact h (by simp [blobKeys, e])
    have hrest : aid ∉ blobKeys rest := fun hm => h (by simp [blobKeys] at hm ⊢; exact Or.inr hm)
    have hne : (k == aid) = false := beq_false_of_ne hk
    simp only [setKey, hne]
    rw [ih hrest]

theorem setKey_lookup_self_eq (b : AchBlob) (aid : String) (v : AchInfo)
    (hnd : (blobKeys b).Nodup) (h : List.lookup aid b = some v) :
    setKey b aid v = b := by
  induction b with
  | nil => simp [List.lookup] at h
  | cons kv rest ih =>
    obtain ⟨k, w⟩ := kv
    have hcons : (k :: blobKeys rest).Nodup := by simpa [blobKeys] using hnd
    by_cases hk : aid = k
    · subst hk
      simp only [List.lookup, beq_self_eq_true] at h
      have hw : w = v := by injection h
      have hnotin : aid ∉ blobKeys rest := (List.nodup_cons.mp hcons).1
      simp only [setKey, beq_self_eq_true]
      rw [setKey_of_not_mem rest aid v hnotin, hw]
    · have hne : (aid == k) = false := beq_false_of_ne hk
      have hnk : (k == aid) = false := beq_false_of_ne fun e => hk e.symm
      simp only [List.lookup, hne] at h
      simp only [setKey, hnk]
      rw [ih (List.nodup_cons.mp hcons).2 h]

theorem lookup_of_mem_nodup {b : AchBlob} {k : String} {v : AchInfo}
    (hnd : (blobKeys b).Nodup) (h : (k, v) ∈ b) : List.lookup k b = some v := by
  induction b with
  | nil => simp at h
  | cons kv rest ih =>
    obtain ⟨k', w⟩ := kv
    have hcons : (k' :: blobKeys rest).Nodup := by simpa [blobKeys] using hnd
    rcases List.mem_cons.mp h with h1 | h1
    · rw [Prod.mk.injEq] at h1
      obtain ⟨e1, e2⟩ := h1
      subst e1; subst e2
      simp [List.lookup]
    · have hk : k ≠ k' := by
        intro e
        subst e
        exact (List.nodup_cons.mp hcons).1 (by
          simpa [blobKeys] using List.mem_map_of_mem Prod.fst h1)
      have hne : (k == k') = false := beq_false_of_ne hk
      simp only [List.lookup, hne]
      exact ih (List.nodup_cons.mp hcons).2 h1

theorem mergeStep_self_entry (m : AchBlob) (k : String) (v : AchInfo)
    (hnd : (blobKeys m).Nodup) (h : List.lookup k m = some v) :
    mergeStep m k v = m := by
  unfold mergeStep
  rw [h]
  cases hv : v.ts with
  | none => simp [hv]
  | some t => simp [hv, setKey_lookup_self_eq m k v hnd h]

/-- Merging a blob with (a copy of) itself is the identity. -/
theorem mergeAchJson_self (a : AchBlob) (hnd : (blobKeys a).Nodup) :
    mergeAchJson a a = a := by
  have main : ∀ inc : AchBlob, (∀ kv ∈ inc, List.lookup kv.1 a = some kv.2) →
      inc.foldl (fun m kv => mergeStep m kv.1 kv.2) a = a := by
    intro inc
    induction inc with
    | nil => intro _; rfl
    | cons kv rest ih =>
      intro hall
      have h1 : List.lookup kv.1 a = some kv.2 := hall kv (List.mem_cons_self kv rest)
      have hstep : mergeStep a kv.1 kv.2 = a := mergeStep_self_entry a kv.1 kv.2 hnd h1
      simp only [List.foldl_cons, hstep]
      exact ih fun kv' hm => hall kv' (List.mem_cons_of_mem kv hm)
  exact main a fun kv hm => lookup_of_mem_nodup hnd hm

/-! ### Row model: `char_data(key PRIMARY KEY, guid INTEGER, ach_json TEXT)` -/

/-- One row of the `char_data` table (sync_pvp.py:806-814): `guid` is an
SQLite INTEGER column, hence possibly NULL (`none`). -/
structure CharRow where
  key : String
  guid : Option Int
  ach : AchBlob
  deriving Repr, DecidableEq

/-- Python truthiness-based `existing_guid or g` (sync_pvp.py:907/946):
`None` and `0` are falsy, so only a non-null non-zero existing guid wins. -/
def pyOrGuid (existingGuid g : Option Int) : Option Int :=
  match existingGuid with
  | some v => if v = 0 then g else some v
  | none => g

/-- The UPDATE branch of `merge_one_shard` (sync_pvp.py:940-946) for a shard
row `(k, g, j)` whose key already exists in the working store:
`UPDATE char_data SET guid=?, ach_json=? WHERE key=?` with
`(existing_guid or g, _merge_ach_json(existing_json, j), k)`.
The row key is untouched (it is only the WHERE selector). -/
def mergeRowUpdate (existing : CharRow) (g : Option Int) (j : AchBlob) : CharRow :=
  { key := existing.key
    guid := pyOrGuid existing.guid g
    ach := mergeAchJson existing.ach j }

/-! ### Canonical serialization (json.dumps with separators=(",", ":")) -/

/-- JSON string escaping for the characters that occur in achievement names
(backslash and double quote; `json.dumps` escapes both). -/
def escapeJson (s : String) : String :=
  String.join (s.toList.map fun c =>
    if c = '\\' then "\\\\" else if c = '"' then "\\\"" else String.singleton c)

/-- A JSON integer-or-null timestamp. -/
def serTs : Option Int → String
  | none => "null"
  | some t => toString t

/-- One `"aid":{"name":...,"ts":...}` member of the compact blob. -/
def serEntry (kv : String × AchInfo) : String :=
  "\"" ++ escapeJson kv.1 ++ "\":\x7b\"name\":\"" ++ escapeJson kv.2.name ++
    "\",\"ts\":" ++ serTs kv.2.ts ++ "\x7d"

/-- `json.dumps(blob, separators=(",", ":"))`: the canonical compact
serialization of a parsed blob (dict iteration order = insertion order). -/
def serAchJson (b : AchBlob) : String :=
  "\x7b" ++ String.intercalate "," (b.map serEntry) ++ "\x7d"

theorem pyOrGuid_self (g : Option Int) : pyOrGuid g g = g := by
  cases g with
  | none => rfl
  | some v =>
    by_cases hv : v = 0
    · simp [pyOrGuid, hv]
    · simp [pyOrGuid, hv]

/-- C2: For every key and every achievement ID present in both the existing
and the incoming snapshot, the shard/seed merge (`_merge_ach_json`,
sync_pvp.py:829-882) keeps the side with a non-null timestamp; if both
timestamps are non-null it keeps the later (larger) one; if both are null it
keeps the existing entry; and every achievement ID present in only one side
appears in the merged result. -/
theorem claim_C2_merge_precedence (existing incoming : AchBlob)
    (hnd : (blobKeys incoming).Nodup) (aid : String) :
    (∀ infoOld, List.lookup aid existing = some infoOld →
        List.lookup aid incoming = none →
        List.lookup aid (mergeAchJson existing incoming) = some infoOld) ∧
    (∀ infoNew, List.lookup aid existing = none →
        List.lookup aid incoming = some infoNew →
        List.lookup aid (mergeAchJson existing incoming) = some infoNew) ∧
    (∀ infoOld infoNew, List.lookup aid existing = some infoOld →
        List.lookup aid incoming = some infoNew →
      (infoOld.ts = none → infoNew.ts ≠ none →
        List.lookup aid (mergeAchJson existing incoming) = some infoNew) ∧
      (infoOld.ts ≠ none → infoNew.ts = none →
        List.lookup aid (mergeAchJson existing incoming) = some infoOld) ∧
      (infoOld.ts = none → infoNew.ts = none →
        List.lookup aid (mergeAchJson existing incoming) = some infoOld) ∧
      (∀ tOld tNew, infoOld.ts = some tOld → infoNew.ts = some tNew →
        ∃ info, List.lookup aid (mergeAchJson existing incoming) = some info ∧
          info.ts = some (max tOld tNew))) := by
  have hch := lookup_mergeAchJson existing incoming hnd aid
  refine ⟨?_, ?_, ?_⟩
  · intro infoOld h1 h2
    rw [hch, h1, h2]
    rfl
  · intro infoNew h1 h2
    rw [hch, h1, h2]
    rfl
  · intro infoOld infoNew h1 h2
    rw [hch, h1, h2]
    refine ⟨?_, ?_, ?_, ?_⟩
    · intro ho hn
      cases hn' : infoNew.ts with
      | none => exact absurd hn' hn
      | some t => simp [mergeSpec, pickInfo, ho, hn']
    · intro ho hn
      cases ho' : infoOld.ts with
      | none => exact absurd ho' ho
      | some t => simp [mergeSpec, pickInfo, ho', hn]
    · intro ho hn
      simp [mergeSpec, pickInfo, ho, hn]
    · intro tOld tNew ho hn
      refine ⟨pickInfo infoOld infoNew, rfl, ?_⟩
      unfold pickInfo
      rw [ho, hn]
      by_cases hle : tOld ≤ tNew
      · simp [hle, hn, max_eq_right hle]
      · have hge : tNew ≤ tOld := le_of_not_le hle
        simp [hle, ho, max_eq_left hge]

/-- Witness for C2: existing `{id 5 -> ts=2000}` and incoming
`{id 5 -> ts=1000}` merge to `ts = max 2000 1000 = 2000`; an id only in
incoming is added and an id only in existing is retained; a null existing ts
loses to an incoming real ts. -/
theorem claim_C2_merge_precedence_witness :
    (∃ info, List.lookup "5"
        (mergeAchJson [("5", AchInfo.mk "A" (some 2000))]
          [("5", AchInfo.mk "A" (some 1000))]) = some info ∧
        info.ts = some (max 2000 1000)) ∧
    List.lookup "9" (mergeAchJson [("5", AchInfo.mk "A" (some 2000))]
        [("9", AchInfo.mk "C" none)]) = some (AchInfo.mk "C" none) ∧
    List.lookup "7" (mergeAchJson [("7", AchInfo.mk "B" none)]
        [("9", AchInfo.mk "C" none)]) = some (AchInfo.mk "B" none) ∧
    List.lookup "5" (mergeAchJson [("5", AchInfo.mk "A" none)]
        [("5", AchInfo.mk "A" (some 1000))]) = some (AchInfo.mk "A" (some 1000)) :=
  ⟨((claim_C2_merge_precedence _ _ (by decide) "5").2.2
      (AchInfo.mk "A" (some 2000)) (AchInfo.mk "A" (some 1000))
      (by decide) (by decide)).2.2.2 2000 1000 rfl rfl,
   (claim_C2_merge_precedence _ _ (by decide) "9").2.1
      (AchInfo.mk "C" none) (by decide) (by decide),
   (claim_C2_merge_precedence _ _ (by decide) "7").1
      (AchInfo.mk "B" none) (by decide) (by decide),
   (((claim_C2_merge_precedence _ _ (by decide) "5").2.2
      (AchInfo.mk "A" none) (AchInfo.mk "A" (some 1000))
      (by decide) (by decide)).1 rfl (by decide))⟩

/-- C8: merging a store with itself (for every key, the incoming snapshot
equals the existing one, so `merge_one_shard` runs its UPDATE branch with
`g = existing.guid` and `j = existing.ach`) leaves every stored snapshot
unchanged, and therefore its serialized achievements blob byte-identical. -/
theorem claim_C8_self_merge_identity (r : CharRow)
    (hnd : (blobKeys r.ach).Nodup) :
    mergeRowUpdate r r.guid r.ach = r ∧
      serAchJson (mergeAchJson r.ach r.ach) = serAchJson r.ach := by
  have hach := mergeAchJson_self r.ach hnd
  constructor
  · obtain ⟨key, guid, ach⟩ := r
    simp only [mergeRowUpdate] at *
    rw [pyOrGuid_self, hach]
  · rw [hach]

/-- Witness for C8 at a concrete one-row store with a null-timestamp entry. -/
theorem claim_C8_self_merge_identity_witness :
    mergeRowUpdate (CharRow.mk "a-b" (some 5) [("1", AchInfo.mk "X" none)])
        (some 5) [("1", AchInfo.mk "X" none)] =
      CharRow.mk "a-b" (some 5) [("1", AchInfo.mk "X" none)] :=
  (claim_C8_self_merge_identity
    (CharRow.mk "a-b" (some 5) [("1", AchInfo.mk "X" none)]) (by decide)).1

/-- C10: when a shard row is merged for a key that already exists in the
working store, the stored guid is left unchanged whenever the existing guid
is non-zero and non-null; the incoming guid is used only when the existing
guid is 0 or NULL; the key is untouched and the achievements blob is the only
field recomputed (by `_merge_ach_json`). -/
theorem claim_C10_guid_frame (existing : CharRow) (g : Option Int)
    (j : AchBlob) :
    (mergeRowUpdate existing g j).key = existing.key ∧
    (∀ v : Int, existing.guid = some v → v ≠ 0 →
      (mergeRowUpdate existing g j).guid = existing.guid) ∧
    (existing.guid = some 0 → (mergeRowUpdate existing g j).guid = g) ∧
    (existing.guid = none → (mergeRowUpdate existing g j).guid = g) ∧
    (mergeRowUpdate existing g j).ach = mergeAchJson existing.ach j := by
  refine ⟨rfl, ?_, ?_, ?_, rfl⟩
  · intro v hv hnz
    simp [mergeRowUpdate, pyOrGuid, hv, hnz]
  · intro hv
    simp [mergeRowUpdate, pyOrGuid, hv]
  · intro hv
    simp [mergeRowUpdate, pyOrGuid, hv]

/-- Witness for C10: a non-zero existing guid survives the merge, a zero and
a NULL existing guid are replaced by the shard guid. -/
theorem claim_C10_guid_frame_witness :
    (mergeRowUpdate (CharRow.mk "k" (some 7) []) (some 3) []).guid = some 7 ∧
    (mergeRowUpdate (CharRow.mk "k" (some 0) []) (some 3) []).guid = some 3 ∧
    (mergeRowUpdate (CharRow.mk "k" none []) (some 3) []).guid = some 3 :=
  ⟨(claim_C10_guid_frame (CharRow.mk "k" (some 7) []) (some 3) []).2.1 7 rfl
      (by decide),
   (claim_C10_guid_frame (CharRow.mk "k" (some 0) []) (some 3) []).2.2.1 rfl,
   (claim_C10_guid_frame (CharRow.mk "k" none []) (some 3) []).2.2.2.1 rfl⟩

/-! ### RateLimiter (sync_pvp.py:295-321), time and tokens as exact rationals -/

/-- The token-bucket state of `RateLimiter.__init__` (sync_pvp.py:296-304).
Note the source initialises `tokens = 0`, not `capacity`. -/
structure RateLimiter where
  capacity : ℚ
  tokens : ℚ
  fill_rate : ℚ
  timestamp : ℚ
  period : ℚ
  calls : List ℚ
  deriving Repr

/-- `RateLimiter(max_calls, period)` constructed at monotonic time `now`. -/
def RateLimiter.init (max_calls period now : ℚ) : RateLimiter :=
  { capacity := max_calls
    tokens := 0
    fill_rate := max_calls / period
    timestamp := now
    period := period
    calls := [] }

/-- `RateLimiter.acquire` (sync_pvp.py:306-321) called at monotonic time
`now`, under an ideal clock (after `asyncio.sleep(wait)` the clock reads
exactly `now + wait`).  Returns the time slept before admission together with
the post-state; in the wait branch the source pins `tokens = 1` and then
decrements, so the post-state holds `1 - 1` tokens. -/
def RateLimiter.acquire (st : RateLimiter) (now : ℚ) : ℚ × RateLimiter :=
  let elapsed := now - st.timestamp
  let toks := min st.capacity (st.tokens + elapsed * st.fill_rate)
  if toks < 1 then
    let wait := (1 - toks) / st.fill_rate
    let now2 := now + wait
    (wait,
      { st with
          tokens := 1 - 1
          timestamp := now2
          calls := (st.calls.filter fun t => now2 - t < st.period) ++ [now2] })
  else
    (0,
      { st with
          tokens := toks - 1
          timestamp := now
          calls := (st.calls.filter fun t => now - t < st.period) ++ [now] })

/-- An `acquire()` issued instantaneously: no monotonic time has passed since
the limiter's last recorded timestamp. -/
def RateLimiter.acquireInstant (st : RateLimiter) : ℚ × RateLimiter :=
  st.acquire st.timestamp

/-- The limiter state after `n` instantaneous `acquire()` calls. -/
def RateLimiter.instSt (st : RateLimiter) : Nat → RateLimiter
  | 0 => st
  | n + 1 => ((st.instSt n).acquireInstant).2

theorem acquireInstant_of_tokens_zero (st : RateLimiter)
    (h0 : st.tokens = 0) (hcap : 0 ≤ st.capacity) :
    st.acquireInstant.1 = 1 / st.fill_rate ∧
      st.acquireInstant.2.tokens = 0 ∧
      st.acquireInstant.2.capacity = st.capacity ∧
      st.acquireInstant.2.fill_rate = st.fill_rate := by
  unfold RateLimiter.acquireInstant RateLimiter.acquire
  have he : st.timestamp - st.timestamp = 0 := sub_self _
  simp only [he, h0, zero_mul, add_zero, min_eq_right hcap]
  norm_num

/-- Corrected C4: because `RateLimiter.__init__` sets `tokens = 0` (not
`capacity`), every instantaneous `acquire()` after construction — including
each of the first `C` and the `(C+1)`-th — blocks for exactly `P / C`
seconds before being admitted. -/
theorem claim_C4_amended_every_instant_acquire_blocks (C P t0 : ℚ)
    (hC : 0 < C) (hP : 0 < P) (n : ℕ) :
    (((RateLimiter.init C P t0).instSt n).acquireInstant).1 = P / C := by
  have inv : ∀ m : ℕ, ((RateLimiter.init C P t0).instSt m).tokens = 0 ∧
      ((RateLimiter.init C P t0).instSt m).capacity = C ∧
      ((RateLimiter.init C P t0).instSt m).fill_rate = C / P := by
    intro m
    induction m with
    | zero => exact ⟨rfl, rfl, rfl⟩
    | succ k ih =>
      obtain ⟨h0, hcapk, hfrk⟩ := ih
      have hcap : 0 ≤ ((RateLimiter.init C P t0).instSt k).capacity := by
        rw [hcapk]; exact le_of_lt hC
      obtain ⟨_, h0', hcap', hfr'⟩ :=
        acquireInstant_of_tokens_zero _ h0 hcap
      exact ⟨h0', by rw [RateLimiter.instSt, hcap', hcapk],
        by rw [RateLimiter.instSt, hfr', hfrk]⟩
  obtain ⟨h0, hcapn, hfrn⟩ := inv n
  have hcap : 0 ≤ ((RateLimiter.init C P t0).instSt n).capacity := by
    rw [hcapn]; exact le_of_lt hC
  have hw := (acquireInstant_of_tokens_zero _ h0 hcap).1
  rw [hw, hfrn, one_div_div]

/-- Witness for the amended C4 at `C = 2`, `P = 1`: the very first
instantaneous `acquire()` sleeps `1/2 = P/C` seconds. -/
theorem claim_C4_amended_witness :
    (0 : ℚ) < 2 ∧ (0 : ℚ) < 1 ∧
      (((RateLimiter.init 2 1 0).instSt 0).acquireInstant).1 = 1 / 2 :=
  ⟨by norm_num, by norm_num,
    claim_C4_amended_every_instant_acquire_blocks 2 1 0 (by norm_num)
      (by norm_num) 0⟩

/-- Counterexample to C4 as stated: with capacity 20 and period 1 (the
`per_sec` limiter for `us`/`eu`, sync_pvp.py:593-594), the first of the 20
"instantaneous" `acquire()` calls already blocks — it sleeps `1/20` s, not
`0` — because the bucket starts empty. -/
theorem claim_C4_counterexample :
    ((RateLimiter.init 20 1 0).acquire 0).1 = 1 / 20 ∧
      ((RateLimiter.init 20 1 0).acquire 0).1 ≠ 0 := by
  constructor
  · norm_num [RateLimiter.init, RateLimiter.acquire]
  · norm_num [RateLimiter.init, RateLimiter.acquire]

/-! ### Ingestion retry loop (process_characters, sync_pvp.py:1013-1097) -/

/-- Result of one identity's fetch attempt inside `proc_one`
(sync_pvp.py:983-1006): success, `RateLimitExceeded` re-raised as
`RetryCharacter` (sync_pvp.py:992-993), or any other exception, which the
sweep loop swallows with `except Exception: continue` (sync_pvp.py:1030). -/
inductive FetchOutcome where
  | ok
  | rateLimited
  | dropped
  deriving Repr, DecidableEq

/-- Handling of one completed task by the sweep loop
(sync_pvp.py:1024-1031): on `RetryCharacter` the identity key is written
into the `retry_bucket` dict (`retry_bucket[k] = rc.char`), which keeps one
entry per key; every other outcome leaves the bucket unchanged and never
escapes the `try`. -/
def bucketStep (f1 : String → FetchOutcome) (b : List String) (c : String) :
    List String :=
  match f1 c with
  | .rateLimited => if c ∈ b then b else b ++ [c]
  | _ => b

/-- The retry bucket produced by one full sweep over `remaining`
(sync_pvp.py:1019-1031): `retry_bucket = {}` then every batch's tasks feed
`bucketStep`. -/
def sweepBucket (f1 : String → FetchOutcome) (remaining : List String) :
    List String :=
  remaining.foldl (bucketStep f1) []

/-- The working set at the start of sweep `n` of the
`while remaining:` loop: sweep `n` runs with outcome oracle `f n`, and
`remaining = list(retry_bucket.values())` afterwards (sync_pvp.py:1095). -/
def afterSweeps (f : Nat → String → FetchOutcome) (r0 : List String) :
    Nat → List String
  | 0 => r0
  | n + 1 => sweepBucket (f n) (afterSweeps f r0 n)

/-- `wait_for = max(retry_interval, int(RETRY_AFTER_HINT or 0))` with
`retry_interval = 10` (sync_pvp.py:1009,1085). -/
def retryWait (hint : Nat) : Nat := max 10 hint

/-- The sleep performed after sweep `n`: only when the retry bucket is
non-empty (sync_pvp.py:1081-1093); `none` means the loop exits instead. -/
def sleepAfterSweep (f : Nat → String → FetchOutcome) (hint : Nat → Nat)
    (r0 : List String) (n : Nat) : Option Nat :=
  if sweepBucket (f n) (afterSweeps f r0 n) = [] then none
  else some (retryWait (hint n))

theorem mem_bucketStep_of_mem {f1 : String → FetchOutcome}
    {b : List String} {c k : String} (h : k ∈ b) : k ∈ bucketStep f1 b c := by
  unfold bucketStep
  cases f1 c with
  | rateLimited =>
    by_cases hc : c ∈ b
    · simpa [hc] using h
    · simp only [hc, if_false]
      exact List.mem_append_left _ h
  | ok => exact h
  | dropped => exact h

theorem mem_foldl_bucketStep_of_mem {f1 : String → FetchOutcome}
    {b : List String} {k : String} (l : List String) (h : k ∈ b) :
    k ∈ l.foldl (bucketStep f1) b := by
  induction l generalizing b with
  | nil => exact h
  | cons c rest ih => exact ih (mem_bucketStep_of_mem h)

theorem mem_foldl_sweep {f1 : String → FetchOutcome} {k : String}
    (hf : f1 k = .rateLimited) :
    ∀ remaining b : List String, k ∈ remaining →
      k ∈ remaining.foldl (bucketStep f1) b := by
  intro remaining
  induction remaining with
  | nil => intro b h; simp at h
  | cons c rest ih =>
    intro b h
    rw [List.foldl_cons]
    rcases List.mem_cons.mp h with h1 | h1
    · subst h1
      apply mem_foldl_bucketStep_of_mem
      unfold bucketStep
      rw [hf]
      by_cases hb : k ∈ b
      · simp [hb]
      · simp only [hb, if_false]
        exact List.mem_append_right _ (by simp)
    · exact ih _ h1

theorem mem_sweepBucket {f1 : String → FetchOutcome} {remaining : List String}
    {k : String} (hk : k ∈ remaining) (hf : f1 k = .rateLimited) :
    k ∈ sweepBucket f1 remaining :=
  mem_foldl_sweep hf remaining [] hk

theorem nodup_bucketStep {f1 : String → FetchOutcome} {b : List String}
    {c : String} (h : b.Nodup) : (bucketStep f1 b c).Nodup := by
  unfold bucketStep
  cases f1 c with
  | rateLimited =>
    by_cases hc : c ∈ b
    · simpa [hc]
    · simp only [hc, if_false]
      exact List.nodup_append.mpr ⟨h, List.nodup_singleton c,
        by simpa [List.disjoint_singleton] using hc⟩
  | ok => exact h
  | dropped => exact h

theorem nodup_sweepBucket (f1 : String → FetchOutcome)
    (remaining : List String) : (sweepBucket f1 remaining).Nodup := by
  unfold sweepBucket
  have main : ∀ b : List String, b.Nodup →
      (remaining.foldl (bucketStep f1) b).Nodup := by
    induction remaining with
    | nil => intro b h; exact h
    | cons c rest ih => intro b h; exact ih _ (nodup_bucketStep h)
  exact main [] List.nodup_nil

/-- C3: an identity whose fetch yields `RateLimited` on every attempt is
re-queued into the retry bucket (deduplicated by key) on every sweep, for
arbitrarily many sweeps — there is no maximum retry count, the failure never
escapes the sweep loop (`bucketStep` is total over all outcomes) and never
aborts the run; after every sweep the loop sleeps
`max(base_retry_interval = 10, latest Retry-After hint)` seconds and then
retries exactly the bucket's contents. -/
theorem claim_C3_unbounded_retry (f : Nat → String → FetchOutcome)
    (hint : Nat → Nat) (r0 : List String) (k : String) (hk : k ∈ r0)
    (hf : ∀ n, f n k = .rateLimited) :
    (∀ n, k ∈ afterSweeps f r0 n) ∧
    (∀ n, (afterSweeps f r0 (n + 1)).Nodup) ∧
    (∀ n, sleepAfterSweep f hint r0 n = some (max 10 (hint n))) ∧
    (∀ n, afterSweeps f r0 (n + 1) = sweepBucket (f n) (afterSweeps f r0 n)) := by
  have hmem : ∀ n, k ∈ afterSweeps f r0 n := by
    intro n
    induction n with
    | zero => exact hk
    | succ m ih => exact mem_sweepBucket ih (hf m)
  refine ⟨hmem, ?_, ?_, fun n => rfl⟩
  · intro n
    exact nodup_sweepBucket (f n) (afterSweeps f r0 n)
  · intro n
    have hne : sweepBucket (f n) (afterSweeps f r0 n) ≠ [] := by
      intro he
      have := mem_sweepBucket (hmem n) (hf n)
      rw [he] at this
      simp at this
    simp [sleepAfterSweep, hne, retryWait]

/-- Witness for C3: a single identity that is rate-limited on every sweep is
still queued after 3 sweeps, the bucket stays duplicate-free, and the loop
sleeps `max 10 7 = 10` seconds when the hint is 7. -/
theorem claim_C3_unbounded_retry_witness :
    "x-y" ∈ afterSweeps (fun _ _ => FetchOutcome.rateLimited) ["x-y"] 3 ∧
    (afterSweeps (fun _ _ => FetchOutcome.rateLimited) ["x-y"] 3).Nodup ∧
    sleepAfterSweep (fun _ _ => FetchOutcome.rateLimited) (fun _ => 7)
        ["x-y"] 2 = some 10 :=
  ⟨(claim_C3_unbounded_retry (fun _ _ => .rateLimited) (fun _ => 7) ["x-y"]
      "x-y" (by decide) (fun _ => rfl)).1 3,
   (claim_C3_unbounded_retry (fun _ _ => .rateLimited) (fun _ => 7) ["x-y"]
      "x-y" (by decide) (fun _ => rfl)).2.1 2,
   (claim_C3_unbounded_retry (fun _ _ => .rateLimited) (fun _ => 7) ["x-y"]
      "x-y" (by decide) (fun _ => rfl)).2.2.1 2⟩

/-! ### Batch-mode window slicing (__main__, sync_pvp.py:1390-1433) -/

/-- The identity keys processed by one batch-mode invocation
(sync_pvp.py:1396-1423):
`start = args.offset if args.offset else batch_id * batch_size` and
`cur_limit = args.limit if args.limit else batch_size` (Python truthiness:
an explicit 0 falls back), the overshoot guard `start >= len(all_keys)`
processes nothing, otherwise `slice_keys = all_keys[start : start + cur_limit]`. -/
def batchWindow (allKeys : List String) (offset : Nat) (limit : Option Nat)
    (batchId batchSize : Nat) : List String :=
  let start := if offset ≠ 0 then offset else batchId * batchSize
  let curLimit :=
    match limit with
    | some l => if l ≠ 0 then l else batchSize
    | none => batchSize
  if allKeys.length ≤ start then []
  else (allKeys.drop start).take curLimit

/-- Python's `keys[a : a + n]` for non-negative bounds. -/
def pySlice (keys : List String) (a n : Nat) : List String :=
  (keys.drop a).take n

theorem batchWindow_eq_slice (keys : List String) (offset l batchId batchSize : Nat)
    (hoff : offset ≠ 0 ∨ batchId * batchSize = 0) (hl : l ≠ 0) :
    batchWindow keys offset (some l) batchId batchSize = pySlice keys offset l := by
  have hstart : (if offset ≠ 0 then offset else batchId * batchSize) = offset := by
    rcases hoff with h | h
    · simp [h]
    · by_cases ho : offset = 0
      · simp [ho, h]
      · simp [ho]
  simp only [batchWindow, hstart, hl, ite_true, if_false]
  by_cases hlen : keys.length ≤ offset
  · simp [hlen, pySlice, List.drop_eq_nil_of_le hlen]
  · simp [hlen, pySlice, hl]

/-- Corrected C5: when the explicitly supplied offset is nonzero (an explicit
offset of 0 is falsy in Python and silently falls back to
`batch_id * batch_size`, so offset 0 additionally requires that product to be
0) and the explicit limit is nonzero (an explicit limit of 0 falls back to
`batch_size`), the processed set equals exactly `keys[offset:offset+limit]`;
consequently consecutive windows of width `limit` starting at offset 0 with
the default `batch_id = 0` cover the key space, every key exactly once. -/
theorem claim_C5_amended_window_slice (keys : List String)
    (offset l batchId batchSize : Nat)
    (hoff : offset ≠ 0 ∨ batchId * batchSize = 0) (hl : l ≠ 0) :
    batchWindow keys offset (some l) batchId batchSize = pySlice keys offset l ∧
    (∀ n, keys.length ≤ n * l →
      ((List.range n).map fun i =>
        batchWindow keys (i * l) (some l) 0 batchSize).flatten = keys) := by
  refine ⟨batchWindow_eq_slice keys offset l batchId batchSize hoff hl, ?_⟩
  have hjoin : ∀ n, ((List.range n).map fun i =>
      batchWindow keys (i * l) (some l) 0 batchSize).flatten = keys.take (n * l) := by
    intro n
    induction n with
    | zero => simp
    | succ m ih =>
      rw [List.range_succ, List.map_append, List.flatten_append, ih]
      have hw : batchWindow keys (m * l) (some l) 0 batchSize =
          (keys.drop (m * l)).take l := by
        have := batchWindow_eq_slice keys (m * l) l 0 batchSize
          (Or.inr (by ring)) hl
        simpa [pySlice] using this
      simp only [List.map_cons, List.map_nil, List.flatten, hw, List.append_nil]
      rw [Nat.succ_mul, List.take_add]
  intro n hn
  rw [hjoin n, List.take_of_length_le hn]

/-- Witness for the amended C5 on `["a","b","c"]` with window width 2:
offset 2 selects exactly `keys[2:4] = ["c"]`, and the two windows at offsets
0 and 2 cover the key list exactly once. -/
theorem claim_C5_amended_window_slice_witness :
    batchWindow ["a", "b", "c"] 2 (some 2) 0 9 = pySlice ["a", "b", "c"] 2 2 ∧
    ((List.range 2).map fun i =>
      batchWindow ["a", "b", "c"] (i * 2) (some 2) 0 9).flatten = ["a", "b", "c"] :=
  ⟨(claim_C5_amended_window_slice ["a", "b", "c"] 2 2 0 9
      (Or.inl (by decide)) (by decide)).1,
   (claim_C5_amended_window_slice ["a", "b", "c"] 2 2 0 9
      (Or.inl (by decide)) (by decide)).2 2 (by decide)⟩

/-- Counterexample to C5 as stated: with keys `["a","b","c"]`, an explicitly
supplied valid window `(offset = 0, limit = 1)` and batch parameters
`batch_id = 1, batch_size = 2` (all simultaneously supplied CLI/env values),
the processed set is `["c"]` — the falsy offset 0 is replaced by
`batch_id * batch_size = 2` — whereas the claimed slice
`keys[0:1]` is `["a"]`. -/
theorem claim_C5_counterexample :
    batchWindow ["a", "b", "c"] 0 (some 1) 1 2 = ["c"] ∧
    pySlice ["a", "b", "c"] 0 1 = ["a"] ∧
    batchWindow ["a", "b", "c"] 0 (some 1) 1 2 ≠ pySlice ["a", "b", "c"] 0 1 := by
  refine ⟨by decide, by decide, by decide⟩

/-! ### Fingerprints and co-occurrence edges (sync_pvp.py:1139-1172) -/

/-- The fingerprint token set built by `process_characters`
(sync_pvp.py:1139-1144): one token `(aid, info.get("ts") or 0)` per stored
achievement entry — a null (or zero) timestamp yields the token `(aid, 0)`;
no entry is skipped.  Distinct entries give distinct tokens because the aid
components differ. -/
def fpTokens (ach : AchBlob) : List (String × Int) :=
  ach.map fun kv => (kv.1, kv.2.ts.getD 0)

/-- The inverted-index bucket for one token (sync_pvp.py:1149-1152): the keys
of all rows whose fingerprint holds that exact token, in store order. -/
def tokenBucket (store : List CharRow) (t : String × Int) : List String :=
  (store.filter fun r => t ∈ fpTokens r.ach).map CharRow.key

/-- `MAX_BUCKET` (sync_pvp.py:1155). -/
def MAX_BUCKET : Nat := 1000

/-- `THRESH` (sync_pvp.py:1168). -/
def THRESH : Nat := 5

/-- The tokens that contribute to the pair count of two rows
(sync_pvp.py:1156-1167): tokens carried by both fingerprints whose bucket is
not larger than `MAX_BUCKET` (buckets holding both rows have at least 2
members automatically). -/
def sharedEdgeTokens (store : List CharRow) (ra rb : CharRow) :
    List (String × Int) :=
  (fpTokens ra.ach).filter fun t =>
    t ∈ fpTokens rb.ach ∧ (tokenBucket store t).length ≤ MAX_BUCKET

/-- Whether two distinct rows receive a co-occurrence alt edge
(sync_pvp.py:1168-1172): their pair counter reaches `THRESH`. -/
def hasAltEdge (store : List CharRow) (ra rb : CharRow) : Bool :=
  THRESH ≤ (sharedEdgeTokens store ra rb).length

/-- `_build_tokens` from the diagnostic script
(check_character_pvp.py:369-384): tokens only for entries with a non-null
timestamp — documented there as "Only entries with a non-null, integer
timestamp are included". -/
def buildTokens (ach : AchBlob) : List (String × Int) :=
  ach.filterMap fun kv => kv.2.ts.map fun t => (kv.1, t)

/-- Five achievement entries, all with `ts = null`. -/
def nullTsAch : AchBlob :=
  [("1", AchInfo.mk "n1" none), ("2", AchInfo.mk "n2" none),
   ("3", AchInfo.mk "n3" none), ("4", AchInfo.mk "n4" none),
   ("5", AchInfo.mk "n5" none)]

/-- Two identities whose only (and all) achievements are the five null-ts
entries above. -/
def nullTsStore : List CharRow :=
  [CharRow.mk "a-r" (some 1) nullTsAch, CharRow.mk "b-r" (some 2) nullTsAch]

/-- C1 (evidence of the code bug at the failing input): in `sync_pvp.py`'s
clustering, an entry with `ts = null` contributes the fingerprint token
`(aid, 0)` — the five null-ts entries produce five tokens, and the two
identities sharing only these null-ts achievements do receive a
co-occurrence edge (pair count 5 ≥ THRESH); whereas `_build_tokens` of
`check_character_pvp.py` (the same repository's documented token rule, which
the claim and the spec state) assigns these entries no token at all. -/
theorem claim_C1_null_ts_token_bug :
    fpTokens nullTsAch =
      [("1", 0), ("2", 0), ("3", 0), ("4", 0), ("5", 0)] ∧
    hasAltEdge nullTsStore (CharRow.mk "a-r" (some 1) nullTsAch)
      (CharRow.mk "b-r" (some 2) nullTsAch) = true ∧
    buildTokens nullTsAch = [] := by
  refine ⟨by decide, by decide, by decide⟩

/-! ### Finalize-mode shard merge (sync_pvp.py:1435-1460) -/

/-- The names bound at module level in `src/sync_pvp.py` (its `def`s and
`class`es).  The shard-scan loop that the offline finalize branch needs is
dead code placed after the `return` of `_merge_ach_json`
(sync_pvp.py:884-914), so no `merge_db_shards` binding is ever created. -/
def syncPvpToplevelNames : List String :=
  ["is_lfs_pointer", "find_region_lua_paths", "region_seed_candidates",
   "seed_db_from_lua_paths", "_fmt_duration", "_bump_calls",
   "RetryCharacter", "RateLimitExceeded", "RateLimiter", "get_access_token",
   "get_current_pvp_season_id", "get_available_brackets",
   "get_characters_from_leaderboards", "get_latest_static_namespace",
   "fetch_with_rate_limit", "get_pvp_achievements",
   "get_character_achievements", "db_upsert", "db_iter_rows",
   "_merge_ach_json", "merge_one_shard", "process_characters"]

/-- Result of evaluating a Python name-resolved call. -/
inductive PyResult where
  | ok
  | nameError (missing : String)
  deriving Repr, DecidableEq

/-- The offline finalize branch (sync_pvp.py:1441-1448) evaluates the name
`merge_db_shards` and calls it; Python resolves the call only against the
module's bound names, so an unbound name raises `NameError` instead of
merging any shard. -/
def finalizeOfflineShardMerge (env : List String) : PyResult :=
  if "merge_db_shards" ∈ env then PyResult.ok
  else PyResult.nameError "merge_db_shards"

/-- C6 (evidence of the code bug): `merge_db_shards` is not among the
module-level names of `sync_pvp.py` (its intended body is unreachable code
after the `return` of `_merge_ach_json`), so the non-export-only finalize
branch raises `NameError` instead of loading and merging the shard stores;
the helpers that do exist (`_merge_ach_json`, single-shard
`merge_one_shard`) are bound. -/
theorem claim_C6_merge_db_shards_undefined :
    finalizeOfflineShardMerge syncPvpToplevelNames =
      PyResult.nameError "merge_db_shards" ∧
    "merge_db_shards" ∉ syncPvpToplevelNames ∧
    "_merge_ach_json" ∈ syncPvpToplevelNames ∧
    "merge_one_shard" ∈ syncPvpToplevelNames := by
  refine ⟨by decide, by decide, by decide, by decide⟩

/-! ### In-process URL cache (fetch_with_rate_limit, sync_pvp.py:601-628) -/

/-- Whether `pat` is a prefix of `cs`, on character lists. -/
def isPrefixOfList : List Char → List Char → Bool
  | [], _ => true
  | _ :: _, [] => false
  | p :: ps, c :: cs => p == c && isPrefixOfList ps cs

/-- Whether `pat` occurs as a contiguous substring of the character list. -/
def containsSub (pat : List Char) : List Char → Bool
  | [] => pat.isEmpty
  | c :: cs => isPrefixOfList pat (c :: cs) || containsSub pat cs

/-- Python's `pat in s` substring test. -/
def strContains (s pat : String) : Bool := containsSub pat.data s.data

/-- `cacheable = "profile/wow/character" not in url and "oauth" not in url`
(sync_pvp.py:602). -/
def cacheableUrl (u : String) : Bool :=
  !(strContains u "profile/wow/character") && !(strContains u "oauth")

/-- Outcome of the network request behind one fetch. -/
inductive HttpResp where
  | ok (d : Nat)
  | tooMany
  | serverErr
  deriving Repr, DecidableEq

/-- Events touching the in-process `url_cache`: a fetch of a URL with its
network outcome, or a `url_cache.clear()` (executed in the heartbeat and
after every sweep, sync_pvp.py:1036 and 1080). -/
inductive CacheEv where
  | fetch (url : String) (r : HttpResp)
  | clear
  deriving Repr, DecidableEq

/-- Whether `fetch_with_rate_limit` performs a network request for `url`
given the current cache (sync_pvp.py:603-604): only a cacheable, present URL
is served locally. -/
def fetchHitsNetwork (cache : List (String × Nat)) (u : String) : Bool :=
  !(cacheableUrl u && (List.lookup u cache).isSome)

/-- Cache evolution of `fetch_with_rate_limit` (sync_pvp.py:601-628): a
cache hit returns early; a 200 response is inserted iff the URL is cacheable
(sync_pvp.py:625-626); 429 and 5xx raise `RateLimitExceeded` before any
insert. -/
def cacheStep (cache : List (String × Nat)) : CacheEv → List (String × Nat)
  | .fetch u r =>
    if cacheableUrl u && (List.lookup u cache).isSome then cache
    else
      match r with
      | .ok d => if cacheableUrl u then cache ++ [(u, d)] else cache
      | _ => cache
  | .clear => []

/-- The cache after an event trace, starting from the empty `url_cache = {}`
(sync_pvp.py:597). -/
def runCache (evs : List CacheEv) : List (String × Nat) :=
  evs.foldl cacheStep []

theorem lookup_append_left_nat {l : List (String × Nat)} {u : String}
    {d : Nat} (h : List.lookup u l = some d) (l₂ : List (String × Nat)) :
    List.lookup u (l ++ l₂) = some d := by
  induction l with
  | nil => simp [List.lookup] at h
  | cons kv rest ih =>
    obtain ⟨k, w⟩ := kv
    by_cases hk : u = k
    · subst hk
      simp only [List.lookup, beq_self_eq_true] at h ⊢
      exact h
    · have hne : (u == k) = false := beq_false_of_ne hk
      simp only [List.cons_append, List.lookup, hne] at h ⊢
      exact ih h

theorem lookup_cacheStep_preserved {cache : List (String × Nat)} {u : String}
    {d : Nat} {ev : CacheEv} (hev : ev ≠ CacheEv.clear)
    (h : List.lookup u cache = some d) :
    List.lookup u (cacheStep cache ev) = some d := by
  cases ev with
  | clear => exact absurd rfl hev
  | fetch u' r =>
    unfold cacheStep
    by_cases hhit : cacheableUrl u' && (List.lookup u' cache).isSome
    · simpa [hhit] using h
    · simp only [hhit, if_false]
      cases r with
      | ok dd =>
        by_cases hc : cacheableUrl u'
        · simpa [hc] using lookup_append_left_nat h [(u', dd)]
        · simpa [hc] using h
      | tooMany => exact h
      | serverErr => exact h

theorem cache_all_cacheable (evs : List CacheEv) :
    ∀ kv ∈ runCache evs, cacheableUrl kv.1 = true := by
  unfold runCache
  have main : ∀ (evs : List CacheEv) (cache : List (String × Nat)),
      (∀ kv ∈ cache, cacheableUrl kv.1 = true) →
      ∀ kv ∈ evs.foldl cacheStep cache, cacheableUrl kv.1 = true := by
    intro evs
    induction evs with
    | nil => intro cache h; exact h
    | cons ev rest ih =>
      intro cache h
      apply ih
      intro kv hkv
      cases ev with
      | clear => simp [cacheStep] at hkv
      | fetch u' r =>
        unfold cacheStep at hkv
        by_cases hhit : cacheableUrl u' && (List.lookup u' cache).isSome
        · exact h kv (by simpa [hhit] using hkv)
        · simp only [hhit, if_false] at hkv
          cases r with
          | ok dd =>
            by_cases hc : cacheableUrl u'
            · simp only [hc, if_true] at hkv
              rcases List.mem_append.mp hkv with hm | hm
              · exact h kv hm
              · have : kv = (u', dd) := by simpa using hm
                rw [this]
                exact hc
            · exact h kv (by simpa [hc] using hkv)
          | tooMany => exact h kv hkv
          | serverErr => exact h kv hkv
  exact main evs [] (by simp)

/-- Corrected C9: a cacheable URL's stored response survives only until the
next `url_cache.clear()` — which `process_characters` executes at every
heartbeat and after every sweep — not for the remainder of the run.  Between
clears the cached entry persists and every fetch of that URL is served from
the cache without a network call; and character-profile (and oauth) URLs are
never inserted into the cache. -/
theorem claim_C9_amended_cache_until_clear (evs tail : List CacheEv)
    (u : String) (d : Nat)
    (hcache : List.lookup u (runCache evs) = some d)
    (hnoclear : CacheEv.clear ∉ tail) :
    List.lookup u (runCache (evs ++ tail)) = some d ∧
    (cacheableUrl u = true →
      fetchHitsNetwork (runCache (evs ++ tail)) u = false) ∧
    (∀ kv ∈ runCache evs, cacheableUrl kv.1 = true) := by
  have hpres : List.lookup u (runCache (evs ++ tail)) = some d := by
    unfold runCache
    rw [List.foldl_append]
    have main : ∀ (tail : List CacheEv) (cache : List (String × Nat)),
        CacheEv.clear ∉ tail → List.lookup u cache = some d →
        List.lookup u (tail.foldl cacheStep cache) = some d := by
      intro tail
      induction tail with
      | nil => intro cache _ h; exact h
      | cons ev rest ih =>
        intro cache hnc h
        have hev : ev ≠ CacheEv.clear := fun he => hnc (by simp [he])
        have hrest : CacheEv.clear ∉ rest := fun hm => hnc (by simp [hm])
        exact ih _ hrest (lookup_cacheStep_preserved hev h)
    exact main tail _ hnoclear hcache
  refine ⟨hpres, ?_, cache_all_cacheable evs⟩
  intro hc
  simp [fetchHitsNetwork, hc, hpres]

/-- A cacheable static URL (the achievement index). -/
def idxUrl : String :=
  "https://us.api.blizzard.com/data/wow/achievement/index"

/-- A per-character profile URL (never cached). -/
def profileUrl : String :=
  "https://us.api.blizzard.com/profile/wow/character/realm/name/achievements"

/-- Witness for the amended C9: after caching the index URL, a later trace
without a clear still serves it from the cache with no network call. -/
theorem claim_C9_amended_cache_until_clear_witness :
    List.lookup idxUrl
      (runCache ([CacheEv.fetch idxUrl (HttpResp.ok 1)] ++
        [CacheEv.fetch idxUrl (HttpResp.ok 5)])) = some 1 ∧
    fetchHitsNetwork
      (runCache ([CacheEv.fetch idxUrl (HttpResp.ok 1)] ++
        [CacheEv.fetch idxUrl (HttpResp.ok 5)])) idxUrl = false :=
  ⟨(claim_C9_amended_cache_until_clear [CacheEv.fetch idxUrl (HttpResp.ok 1)]
      [CacheEv.fetch idxUrl (HttpResp.ok 5)] idxUrl 1 (by decide)
      (by decide)).1,
   (claim_C9_amended_cache_until_clear [CacheEv.fetch idxUrl (HttpResp.ok 1)]
      [CacheEv.fetch idxUrl (HttpResp.ok 5)] idxUrl 1 (by decide)
      (by decide)).2.1 (by decide)⟩

/-- Counterexample to C9 as stated: the cacheable index URL is cached by its
first fetch, but after the `url_cache.clear()` that runs at the next
heartbeat / end of sweep the cache is empty and the next fetch of the same
URL performs a network call again — the entry does not remain cached for the
remainder of the run.  (The profile-URL half of the claim does hold: a
profile fetch inserts nothing.) -/
theorem claim_C9_counterexample :
    cacheableUrl idxUrl = true ∧
    List.lookup idxUrl (runCache [CacheEv.fetch idxUrl (HttpResp.ok 1)]) =
      some 1 ∧
    runCache [CacheEv.fetch idxUrl (HttpResp.ok 1), CacheEv.clear] = [] ∧
    fetchHitsNetwork
      (runCache [CacheEv.fetch idxUrl (HttpResp.ok 1), CacheEv.clear])
      idxUrl = true ∧
    runCache [CacheEv.fetch profileUrl (HttpResp.ok 2)] = [] := by
  refine ⟨by decide, by decide, by decide, by decide, by decide⟩

/-! ### Output chunking (write_chunk and the chunk loop, sync_pvp.py:1219-1295) -/

/-- `len(s.encode("utf-8"))`. -/
def bytesOf (s : String) : Nat := s.utf8ByteSize

/-- Python `.upper()` on the ASCII region codes. -/
def upperStr (s : String) : String := String.mk (s.data.map Char.toUpper)

/-- `region_check` (sync_pvp.py:1225/1256). -/
def regionCheckStr (rid : Nat) : String :=
  "if GetCurrentRegion() ~= " ++ toString rid ++ " then return end\n"

/-- The `-- File:` line of the monolithic `region_{r}.lua` header. -/
def monoFileLine (region : String) : String :=
  "-- File: RatedStats_Achiev/region_" ++ region ++ ".lua\n"

/-- The `-- File:` line of a `region_{r}_part{i}.lua` header. -/
def partFileLine (region : String) (i : Nat) : String :=
  "-- File: RatedStats_Achiev/region_" ++ region ++ "_part" ++ toString i ++
    ".lua\n"

/-- `local achievements={\n`. -/
def achOpen : String := "local achievements=\x7b\n"

/-- The monolithic footer `}\n\nACHIEVEMENTS_{R} = achievements\n`. -/
def monoFooter (region : String) : String :=
  "\x7d\n\n" ++ "ACHIEVEMENTS_" ++ upperStr region ++ " = achievements\n"

/-- The part footer `}\n\nACHIEVEMENTS_{R}_PART{i} = achievements\n`. -/
def partFooter (region : String) (i : Nat) : String :=
  "\x7d\n\n" ++ "ACHIEVEMENTS_" ++ upperStr region ++ "_PART" ++ toString i ++
    " = achievements\n"

/-- The chunk loop's size estimate (sync_pvp.py:1259-1275):
`len(candidate) + header_len + footer_len + region_check_len`, where the
header and footer lengths are measured on the *monolithic* file's header and
footer (not the longer `_part` variants actually written). -/
def estSize (region : String) (rid : Nat) (lines : List String) : Nat :=
  bytesOf (String.join lines) + bytesOf (monoFileLine region ++ achOpen) +
    bytesOf (monoFooter region) + bytesOf (regionCheckStr rid)

/-- The full text written for one output unit by `write_chunk`
(sync_pvp.py:1224-1249): header (file line + region guard + table open),
entry lines, footer. -/
def partContent (region : String) (rid : Nat) (single : Bool) (i : Nat)
    (lines : List String) : String :=
  if single then
    monoFileLine region ++ regionCheckStr rid ++ achOpen ++
      String.join lines ++ monoFooter region
  else
    partFileLine region i ++ regionCheckStr rid ++ achOpen ++
      String.join lines ++ partFooter region i

/-- The chunk loop's mutable state (sync_pvp.py:1220-1222): next part index,
`current_lines`, and the parts already flushed by `write_chunk`. -/
structure ChunkSt where
  partIndex : Nat
  current : List String
  flushed : List (Nat × List String)
  deriving Repr, DecidableEq

/-- One iteration of `for line in entry_lines` (sync_pvp.py:1259-1282):
if the candidate including this line overshoots `MAX_BYTES`, flush
`current_lines` as the next numbered part and restart from `[line]`;
otherwise append the line. -/
def chunkStep (region : String) (rid maxBytes : Nat) (st : ChunkSt)
    (line : String) : ChunkSt :=
  if maxBytes < estSize region rid (st.current ++ [line]) then
    { partIndex := st.partIndex + 1
      current := [line]
      flushed := st.flushed ++ [(st.partIndex, st.current)] }
  else
    { st with current := st.current ++ [line] }

/-- The complete chunking of `entry_lines` (sync_pvp.py:1259-1293): run the
loop, then the final write — a single monolithic file iff no part was
flushed (`part_index == 1`), else one last `_part` file.  Returns the parts
(index, entry lines) in order together with the `is_single_file` flag. -/
def chunkParts (region : String) (rid maxBytes : Nat)
    (entryLines : List String) : List (Nat × List String) × Bool :=
  let st := entryLines.foldl (chunkStep region rid maxBytes) ⟨1, [], []⟩
  if st.partIndex = 1 then ([(1, st.current)], true)
  else (st.flushed ++ [(st.partIndex, st.current)], false)

theorem bytesOf_append (a b : String) : bytesOf (a ++ b) = bytesOf a + bytesOf b := by
  obtain ⟨as⟩ := a
  obtain ⟨bs⟩ := b
  simp [bytesOf, String.utf8ByteSize, String.append]

theorem bytesOf_join (lines : List String) :
    bytesOf (String.join lines) = (lines.map bytesOf).sum := by
  have main : ∀ (lines : List String) (acc : String),
      bytesOf (lines.foldl (· ++ ·) acc) = bytesOf acc + (lines.map bytesOf).sum := by
    intro lines
    induction lines with
    | nil => intro acc; simp
    | cons l rest ih =>
      intro acc
      rw [List.foldl_cons, ih, bytesOf_append]
      simp [Nat.add_assoc]
  have : String.join lines = lines.foldl (· ++ ·) "" := rfl
  rw [this, main lines ""]
  have h0 : bytesOf "" = 0 := by decide
  rw [h0, Nat.zero_add]

theorem estSize_append_line (region : String) (rid : Nat)
    (lines : List String) (l : String) :
    estSize region rid (lines ++ [l]) = estSize region rid lines + bytesOf l := by
  unfold estSize
  rw [bytesOf_join, bytesOf_join]
  simp [Nat.add_comm, Nat.add_assoc, Nat.add_left_comm]

/-- A flushed or pending part is acceptable when it is a singleton restart or
its estimated size fits the budget. -/
def goodPart (region : String) (rid maxBytes : Nat)
    (p : Nat × List String) : Prop :=
  p.2.length ≤ 1 ∨ estSize region rid p.2 ≤ maxBytes

/-- The actual bytes of a written `_part` file exceed the loop's estimate of
its lines by exactly the `_part{i}` filename suffix and `_PART{i}` variable
suffix that the estimate (measured against the monolithic header/footer)
does not account for. -/
theorem partContent_bytes (region : String) (rid i : Nat)
    (lines : List String) :
    bytesOf (partContent region rid false i lines) =
      estSize region rid lines + bytesOf ("_part" ++ toString i) +
        bytesOf ("_PART" ++ toString i) := by
  unfold partContent estSize partFileLine monoFileLine partFooter monoFooter
  simp only [if_false, Bool.false_eq_true, bytesOf_append]
  omega

theorem chunk_fold_inv (region : String) (rid maxBytes : Nat) :
    ∀ (lines : List String) (st : ChunkSt),
      (st.current.length ≤ 1 ∨ estSize region rid st.current ≤ maxBytes) →
      (∀ p ∈ st.flushed, goodPart region rid maxBytes p) →
      st.partIndex = st.flushed.length + 1 →
      st.flushed.map Prod.fst = List.range' 1 st.flushed.length →
      (st.flushed = [] → st.current = [] ∨ estSize region rid st.current ≤ maxBytes) →
      (((lines.foldl (chunkStep region rid maxBytes) st).flushed.map Prod.snd).flatten
          ++ (lines.foldl (chunkStep region rid maxBytes) st).current =
        (st.flushed.map Prod.snd).flatten ++ st.current ++ lines) ∧
      ((lines.foldl (chunkStep region rid maxBytes) st).current.length ≤ 1 ∨
        estSize region rid (lines.foldl (chunkStep region rid maxBytes) st).current ≤ maxBytes) ∧
      (∀ p ∈ (lines.foldl (chunkStep region rid maxBytes) st).flushed,
        goodPart region rid maxBytes p) ∧
      (lines.foldl (chunkStep region rid maxBytes) st).partIndex =
        (lines.foldl (chunkStep region rid maxBytes) st).flushed.length + 1 ∧
      (lines.foldl (chunkStep region rid maxBytes) st).flushed.map Prod.fst =
        List.range' 1 (lines.foldl (chunkStep region rid maxBytes) st).flushed.length ∧
      ((lines.foldl (chunkStep region rid maxBytes) st).flushed = [] →
        (lines.foldl (chunkStep region rid maxBytes) st).current = [] ∨
          estSize region rid (lines.foldl (chunkStep region rid maxBytes) st).current ≤ maxBytes) := by
  intro lines
  induction lines with
  | nil =>
    intro st h1 h2 h3 h4 h5
    exact ⟨by simp, h1, h2, h3, h4, h5⟩
  | cons line rest ih =>
    intro st h1 h2 h3 h4 h5
    rw [List.foldl_cons]
    by_cases hover : maxBytes < estSize region rid (st.current ++ [line])
    · have hstep : chunkStep region rid maxBytes st line =
          ⟨st.partIndex + 1, [line], st.flushed ++ [(st.partIndex, st.current)]⟩ := by
        simp [chunkStep, hover]
      rw [hstep]
      have h2' : ∀ p ∈ st.flushed ++ [(st.partIndex, st.current)],
          goodPart region rid maxBytes p := by
        intro p hp
        rcases List.mem_append.mp hp with hm | hm
        · exact h2 p hm
        · have : p = (st.partIndex, st.current) := by simpa using hm
          rw [this]
          exact h1
      have h3' : st.partIndex + 1 = (st.flushed ++ [(st.partIndex, st.current)]).length + 1 := by
        simp [h3]
      have h4' : (st.flushed ++ [(st.partIndex, st.current)]).map Prod.fst =
          List.range' 1 (st.flushed ++ [(st.partIndex, st.current)]).length := by
        simp only [List.map_append, List.map_cons, List.map_nil,
          List.length_append, List.length_cons, List.length_nil]
        rw [h4, h3, List.range'_1_concat]
        simp [Nat.add_comm]
      have h5' : st.flushed ++ [(st.partIndex, st.current)] = [] →
          ([line] : List String) = [] ∨ estSize region rid [line] ≤ maxBytes := by
        intro he
        simp at he
      obtain ⟨c1, c2, c3, c4, c5, c6⟩ :=
        ih ⟨st.partIndex + 1, [line], st.flushed ++ [(st.partIndex, st.current)]⟩
          (Or.inl (by simp)) h2' h3' h4' h5'
      refine ⟨?_, c2, c3, c4, c5, c6⟩
      rw [c1]
      simp
    · have hstep : chunkStep region rid maxBytes st line =
          { st with current := st.current ++ [line] } := by
        simp [chunkStep, hover]
      rw [hstep]
      have hfit : estSize region rid (st.current ++ [line]) ≤ maxBytes :=
        Nat.le_of_not_lt hover
      have h5' : st.flushed = [] →
          st.current ++ [line] = [] ∨
            estSize region rid (st.current ++ [line]) ≤ maxBytes :=
        fun _ => Or.inr hfit
      obtain ⟨c1, c2, c3, c4, c5, c6⟩ :=
        ih { st with current := st.current ++ [line] }
          (Or.inr hfit) h2 h3 h4 h5'
      refine ⟨?_, c2, c3, c4, c5, c6⟩
      rw [c1]
      simp

/-- Corrected C7: when the serialized entries exceed the byte budget, the
writer emits two or more sequentially numbered `_part` files (and no
monolithic file), and the concatenation of all parts' entry lines equals the
original entry sequence exactly once each.  The per-part size bound holds in
the amended form the code actually enforces: every part either consists of
at most one entry line (a single line whose own estimated size exceeds the
budget is still written, over budget) or its *estimated* size — measured
against the monolithic header/footer — fits the budget, so the actual
`_part` file may exceed the budget by up to the extra `_part{i}` / `_PART{i}`
suffix bytes but by no more. -/
theorem claim_C7_amended_chunking (region : String) (rid maxBytes : Nat)
    (entryLines : List String)
    (hover : maxBytes < estSize region rid entryLines)
    (hempty : estSize region rid [] ≤ maxBytes) :
    2 ≤ (chunkParts region rid maxBytes entryLines).1.length ∧
    (chunkParts region rid maxBytes entryLines).2 = false ∧
    ((chunkParts region rid maxBytes entryLines).1.map Prod.snd).flatten =
      entryLines ∧
    (chunkParts region rid maxBytes entryLines).1.map Prod.fst =
      List.range' 1 (chunkParts region rid maxBytes entryLines).1.length ∧
    (∀ p ∈ (chunkParts region rid maxBytes entryLines).1,
      p.2.length ≤ 1 ∨
        bytesOf (partContent region rid false p.1 p.2) ≤
          maxBytes + bytesOf ("_part" ++ toString p.1) +
            bytesOf ("_PART" ++ toString p.1)) := by
  obtain ⟨c1, c2, c3, c4, c5, c6⟩ :=
    chunk_fold_inv region rid maxBytes entryLines ⟨1, [], []⟩
      (Or.inl (by simp)) (by simp) (by simp) (by simp) (fun _ => Or.inl rfl)
  set st := entryLines.foldl (chunkStep region rid maxBytes) ⟨1, [], []⟩ with hst
  have hconcat : (st.flushed.map Prod.snd).flatten ++ st.current = entryLines := by
    simpa using c1
  have hne : st.flushed ≠ [] := by
    intro hfe
    rcases c6 hfe with hcur | hcur
    · have : entryLines = [] := by
        rw [← hconcat, hfe, hcur]
        simp
      rw [this] at hover
      exact absurd hempty (Nat.not_le_of_lt hover)
    · have : st.current = entryLines := by
        rw [← hconcat, hfe]
        simp
      rw [this] at hcur
      exact absurd hcur (Nat.not_le_of_lt hover)

  have hlen : 1 ≤ st.flushed.length := by
    cases hf : st.flushed with
    | nil => exact absurd hf hne
    | cons a t => simp
  have hpi : st.partIndex ≠ 1 := by
    rw [c4]
    omega
  have hparts : chunkParts region rid maxBytes entryLines =
      (st.flushed ++ [(st.partIndex, st.current)], false) := by
    unfold chunkParts
    rw [← hst]
    simp [hpi]
  rw [hparts]
  refine ⟨?_, rfl, ?_, ?_, ?_⟩
  · simp only [List.length_append, List.length_cons, List.length_nil]
    omega
  · simp only [List.map_append, List.map_cons, List.map_nil,
      List.flatten_append, List.flatten_cons, List.flatten_nil,
      List.append_nil]
    exact hconcat
  · simp only [List.map_append, List.map_cons, List.map_nil,
      List.length_append, List.length_cons, List.length_nil]
    rw [c5, c4, List.range'_1_concat]
    simp [Nat.add_comm]
  · intro p hp
    have hgood : goodPart region rid maxBytes p := by
      rcases List.mem_append.mp hp with hm | hm
      · exact c3 p hm
      · have : p = (st.partIndex, st.current) := by simpa using hm
        rw [this]
        exact c2
    rcases hgood with hl | he
    · exact Or.inl hl
    · right
      rw [partContent_bytes]
      omega

/-- Two 8-byte entry lines used by the C7 witness. -/
def lineA : String := "aaaaaaaa"

/-- Second witness entry line. -/
def lineB : String := "bbbbbbbb"

/-- Witness for the amended C7: with region `us`, guard id 1 and a 150-byte
budget (the fixed overhead is 139 bytes), the two 8-byte lines overflow the
budget and are split into two sequentially numbered parts that concatenate
back to the original entries, each within the amended size bound. -/
theorem claim_C7_amended_chunking_witness :
    2 ≤ (chunkParts "us" 1 150 [lineA, lineB]).1.length ∧
    ((chunkParts "us" 1 150 [lineA, lineB]).1.map Prod.snd).flatten =
      [lineA, lineB] :=
  ⟨(claim_C7_amended_chunking "us" 1 150 [lineA, lineB] (by decide)
      (by decide)).1,
   (claim_C7_amended_chunking "us" 1 150 [lineA, lineB] (by decide)
      (by decide)).2.2.1⟩

/-- A single 200-byte entry line. -/
def bigLine : String := String.mk (List.replicate 200 'a')

/-- Counterexample to C7 as stated: with a 100-byte budget, the single
200-byte entry line is flushed as part 2 (after an empty part 1), and that
emitted part's total byte size — header, region-guard line, entry lines and
footer — is 348 bytes, far above the budget: the claim that every emitted
part fits the byte budget is false. -/
theorem claim_C7_counterexample :
    chunkParts "us" 1 100 [bigLine] =
      ([(1, []), (2, [bigLine])], false) ∧
    100 < bytesOf (partContent "us" 1 false 2 [bigLine]) := by
  refine ⟨by decide, by decide⟩

end RatedStats
